import Mathlib

/-!
Shallow embedding of the mongorepo data-access layer.

The Go source (respository.go, entityreflection.go, mock.go, config.go)
manipulates arbitrary struct values through reflection.  We embed a record
as a list of named fields; a field carries its Go field name, its raw bson
tag string (empty when no tag is declared) and a value.  Values are a small
closed universe sufficient for the identifier (ObjectID), timestamps
(time.Time) and ordinary payload data; Go `reflect.DeepEqual` becomes
structural equality on this universe.  ObjectIDs are modelled as naturals:
`oidHex` is the hex rendering used by `primitive.ObjectID.Hex()`, and
`oidString` is the `ObjectID("...")` rendering used by
`primitive.ObjectID.String()`.  Panics become `Except.error`, Go `error`
return values become `Option String` (`none` = nil error).
-/

/-- ObjectIDs modelled as naturals; the real type is 12 opaque bytes and the
claims only need key equality and the two string renderings. -/
abbrev ObjectId : Type := Nat

/-- `primitive.NilObjectID` (all-zero ObjectID). -/
def nilObjectId : ObjectId := (0 : Nat)

/-- `primitive.ObjectID.Hex()`: the hex rendering of the identifier. -/
def oidHex (id : ObjectId) : String := String.mk (Nat.toDigits 16 id)

/-- `primitive.ObjectID.String()`: Go renders `ObjectID("<hex>")`. -/
def oidString (id : ObjectId) : String := "ObjectID(\"" ++ oidHex id ++ "\")"

/-- The value universe stored in record fields.  The constructor doubles as
the field's declared Go type: `vObjId` is `primitive.ObjectID`, `vTime` is
`time.Time` (instants modelled as naturals), the rest is payload. -/
inductive BVal where
  | vStr (s : String)
  | vInt (n : Int)
  | vBool (b : Bool)
  | vObjId (o : ObjectId)
  | vTime (t : Nat)
deriving DecidableEq, Repr

/-- One declared struct field: Go name, raw bson tag (empty = no tag), value. -/
structure GoField where
  name : String
  bsonTag : String
  value : BVal
deriving DecidableEq, Repr

/-- A record instance: the ordered list of its declared fields. -/
structure Rec where
  fields : List GoField
deriving DecidableEq, Repr

def getFieldIn : List GoField → String → Option BVal
  | [], _ => none
  | f :: fs, name => if f.name = name then some f.value else getFieldIn fs name

/-- `reflect.Value.FieldByName` as a read: the first field with the given Go
name, if any (Go struct fields have unique names). -/
def recGetField (e : Rec) (name : String) : Option BVal :=
  getFieldIn e.fields name

def setFieldIn : List GoField → String → BVal → List GoField
  | [], _, _ => []
  | f :: fs, name, v =>
    if f.name = name then ⟨f.name, f.bsonTag, v⟩ :: fs
    else f :: setFieldIn fs name v

/-- `reflect.Value.FieldByName` followed by `Set`: replace the value of the
first field with the given name; no-op when absent. -/
def recSetField (e : Rec) (name : String) (v : BVal) : Rec :=
  ⟨setFieldIn e.fields name v⟩

/-- The FieldConfig slice of `Config` / `RepositoryConfig` (config.go):
which field plays each lifecycle role; empty string = role disabled
(identifier defaults to "ID" in the constructors). -/
structure Config where
  idField : String
  createdAtField : String
  updatedAtField : String
  deletedAtField : String
deriving Repr

/-! ## Association-list primitives for the two keyed stores -/

def assocLookup {α : Type} (l : List (String × α)) (k : String) : Option α :=
  (l.find? (fun p => p.1 = k)).map (fun p => p.2)

def assocSet {α : Type} (l : List (String × α)) (k : String) (v : α) :
    List (String × α) :=
  if (l.find? (fun p => p.1 = k)).isSome then
    l.map (fun p => if p.1 = k then (p.1, v) else p)
  else
    l ++ [(k, v)]

/-- Go `delete(m, k)`: remove the entry with key `k` (map keys are unique,
so removing every occurrence is the same operation). -/
def assocErase {α : Type} (l : List (String × α)) (k : String) :
    List (String × α) :=
  l.filter (fun p => ¬ p.1 = k)

/-! ## MockRepository (mock.go)

`MemoryDb` is a `map[string]T`; we model it as an association list keyed by
the stored string.  `time.Now()` and `primitive.NewObjectID()` are effects;
each operation that performs them takes the produced value as an argument
(`now`, `fresh`). -/

structure MockState where
  memoryDb : List (String × Rec)
deriving DecidableEq, Repr

/-- `MockRepository.getEntityObjectID`: reads the configured id field;
logs and returns `primitive.NilObjectID` when the field is missing or not
of type `primitive.ObjectID` (no panic). -/
def mockGetEntityObjectID (cfg : Config) (e : Rec) : ObjectId :=
  match recGetField e cfg.idField with
  | some (BVal.vObjId o) => o
  | _ => nilObjectId

/-- `MockRepository.setNewObjectID`: sets a fresh ObjectID when the field
exists with type `primitive.ObjectID`; otherwise logs and returns an error.
Returns the updated record and the Go error value. -/
def mockSetNewObjectID (cfg : Config) (fresh : ObjectId) (e : Rec) :
    Rec × Option String :=
  match recGetField e cfg.idField with
  | some (BVal.vObjId _) => (recSetField e cfg.idField (BVal.vObjId fresh), none)
  | _ => (e, some ("ID field not found or cannot be set"))

/-- `MockRepository.setEntityTimestamp`: writes `now` when the field exists
with type `time.Time`; otherwise logs and skips (never fails). -/
def mockSetEntityTimestamp (e : Rec) (field : String) (now : Nat) : Rec :=
  match recGetField e field with
  | some (BVal.vTime _) => recSetField e field (BVal.vTime now)
  | _ => e

/-- `MockRepository.FindById`: hex-encode the id, direct key lookup. -/
def mockFindById (s : MockState) (id : ObjectId) : Option Rec :=
  assocLookup s.memoryDb (oidHex id)

/-- `MockRepository.Create`: assign a fresh id (error ignored by the
caller, as in the source), stamp created-at, then store the record under
the hex string of whatever the id field now holds.  Always returns nil. -/
def mockCreate (cfg : Config) (fresh : ObjectId) (now : Nat) (e : Rec)
    (s : MockState) : Rec × MockState × Option String :=
  let e1 := (mockSetNewObjectID cfg fresh e).1
  let e2 := mockSetEntityTimestamp e1 cfg.createdAtField now
  let id := mockGetEntityObjectID cfg e2
  (e2, ⟨assocSet s.memoryDb (oidHex id) e2⟩, none)

/-- `MockRepository.Update`: read the id, stamp updated-at, then look the
entry up under `id.String()` — the `ObjectID("...")` rendering, NOT the
hex key used by `Create` — replacing it on a hit and returning
"entity not found" on a miss. -/
def mockUpdate (cfg : Config) (now : Nat) (e : Rec) (s : MockState) :
    Rec × MockState × Option String :=
  let id := mockGetEntityObjectID cfg e
  let e1 := mockSetEntityTimestamp e cfg.updatedAtField now
  match assocLookup s.memoryDb (oidString id) with
  | some _ => (e1, ⟨assocSet s.memoryDb (oidString id) e1⟩, none)
  | none => (e1, s, some ("entity not found"))

/-- `MockRepository.Delete`: generates a brand-new ObjectID, hex-encodes
it, and deletes that key — the target entity's own id is never read. -/
def mockDelete (fresh : ObjectId) (_e : Rec) (s : MockState) :
    MockState × Option String :=
  (⟨assocErase s.memoryDb (oidHex fresh)⟩, none)

/-! ## QueryMatcher (mock.go: getBsonTagName / matchesQuery) -/

/-- `getBsonTagName`: the raw bson tag when declared, else the Go field
name (the source returns the whole tag string unsplit). -/
def getBsonTagName (f : GoField) : String :=
  if f.bsonTag = "" then f.name else f.bsonTag

/-- `matchesQuery`: for every query key, scan the fields for the first one
whose serialized name equals the key; fail the whole match when its value
differs (`reflect.DeepEqual`) or when no field carries the key. -/
def matchesQuery (e : Rec) (query : List (String × BVal)) : Bool :=
  query.all fun kv =>
    match e.fields.find? (fun f => getBsonTagName f = kv.1) with
    | some f => f.value = kv.2
    | none => false

/-! ## EntityReflection (entityreflection.go)

Unlike the mock helpers, these panic on a missing field, a type mismatch
or an unassignable field; a panic is an `Except.error`. -/

/-- `EntityReflection.GetID`: read the configured id field; panic when the
field is absent or not of type `primitive.ObjectID`. -/
def erGetID (cfg : Config) (e : Rec) : Except String ObjectId :=
  match recGetField e cfg.idField with
  | none => Except.error ("id field not found in entity")
  | some (BVal.vObjId o) => Except.ok o
  | some _ => Except.error ("id field is not of type primitive.ObjectID")

/-- `EntityReflection.SetNewID`: write a fresh ObjectID to the configured
id field; panic when the field is absent, unassignable or mistyped. -/
def erSetNewID (cfg : Config) (fresh : ObjectId) (e : Rec) :
    Except String Rec :=
  match recGetField e cfg.idField with
  | some (BVal.vObjId _) =>
      Except.ok (recSetField e cfg.idField (BVal.vObjId fresh))
  | _ => Except.error ("ID field is either not found or cannot be set")

/-- `EntityReflection.setTimeStampField`: write `now` to the named field;
panic when the field is absent or not of type `time.Time`. -/
def erSetTimeStampField (field : String) (now : Nat) (e : Rec) :
    Except String Rec :=
  match recGetField e field with
  | none => Except.error ("timestamp field not found in entity")
  | some (BVal.vTime _) => Except.ok (recSetField e field (BVal.vTime now))
  | some _ => Except.error ("timestamp field is not of type time.Time")

/-! ## The MongoDB collection as an external collaborator

The real client (`mongo.Collection`) lives outside this repository; we
model it by its documented contract: a set of documents with unique `_id`
keys, with `InsertOne`, `UpdateByID` (`$set` on a full record = replace),
`DeleteOne` by `_id`, and `FindOne` by `_id`.  Transport failures are
modelled by letting an operation's outcome be an input (`insertErr`), or
by an explicit reply constructor (`ClientReply.fail`). -/

structure MongoStore where
  docs : List (ObjectId × Rec)
deriving DecidableEq, Repr

def storeLookup (s : MongoStore) (id : ObjectId) : Option Rec :=
  ((s.docs.find? (fun p => p.1 = id)).map (fun p => p.2))

/-- `UpdateByID(id, {$set: entity})` on a whole record: replace the
document stored under `id`; a non-matching id updates nothing. -/
def storeUpdateById (s : MongoStore) (id : ObjectId) (e : Rec) : MongoStore :=
  ⟨s.docs.map (fun p => if p.1 = id then (p.1, e) else p)⟩

/-- `DeleteOne({_id: id})`: remove the (unique) document keyed `id`. -/
def storeDeleteOne (s : MongoStore) (id : ObjectId) : MongoStore :=
  ⟨s.docs.eraseP (fun p => p.1 = id)⟩

def storeInsert (s : MongoStore) (id : ObjectId) (e : Rec) : MongoStore :=
  ⟨s.docs ++ [(id, e)]⟩

/-- The effect the repository sends to the collection, for framing what a
lifecycle operation physically does to the store. -/
inductive StoreOp where
  | insertOne (id : ObjectId)
  | updateById (id : ObjectId)
  | deleteOne (id : ObjectId)
deriving DecidableEq, Repr

/-! ## Repository (respository.go)

Each operation takes the effectful inputs (`fresh` from
`primitive.NewObjectID()`, `now` from `time.Now()`) as arguments, threads
the entity (mutated through the pointer) and the store, and reports the
trace of store effects.  An `Except.error` is a Go panic. -/

/-- `Repository.Create`: `SetNewID`, then `SetCreatedAt` only when the
created-at role is configured, then `InsertOne`.  `insertErr` is the
outcome of the external insert; on failure the error is returned and the
identifier assignment is not rolled back. -/
def repoCreate (cfg : Config) (fresh : ObjectId) (now : Nat)
    (insertErr : Option String) (e : Rec) (s : MongoStore) :
    Except String (Rec × MongoStore × List StoreOp × Option String) :=
  match erSetNewID cfg fresh e with
  | Except.error m => Except.error m
  | Except.ok e1 =>
    match (if cfg.createdAtField = "" then Except.ok e1
           else erSetTimeStampField cfg.createdAtField now e1) with
    | Except.error m => Except.error m
    | Except.ok e2 =>
      match insertErr with
      | some msg => Except.ok (e2, s, [StoreOp.insertOne fresh], some msg)
      | none =>
          Except.ok (e2, storeInsert s fresh e2, [StoreOp.insertOne fresh], none)

/-- `Repository.Update`: `SetUpdateAt` only when the updated-at role is
configured, then `UpdateByID(GetID(), {$set: entity})`. -/
def repoUpdate (cfg : Config) (now : Nat) (e : Rec) (s : MongoStore) :
    Except String (Rec × MongoStore × List StoreOp × Option String) :=
  match (if cfg.updatedAtField = "" then Except.ok e
         else erSetTimeStampField cfg.updatedAtField now e) with
  | Except.error m => Except.error m
  | Except.ok e1 =>
    match erGetID cfg e1 with
    | Except.error m => Except.error m
    | Except.ok id =>
        Except.ok (e1, storeUpdateById s id e1, [StoreOp.updateById id], none)

/-- `Repository.Delete`: when the deleted-at role is configured,
`SetDeletedAt` then delegate to `Update`; otherwise
`DeleteOne({_id: GetID()})`.  `nowD` and `nowU` are the two `time.Now()`
readings (delete stamp, then update stamp). -/
def repoDelete (cfg : Config) (nowD nowU : Nat) (e : Rec) (s : MongoStore) :
    Except String (Rec × MongoStore × List StoreOp × Option String) :=
  if cfg.deletedAtField = "" then
    match erGetID cfg e with
    | Except.error m => Except.error m
    | Except.ok id => Except.ok (e, storeDeleteOne s id, [StoreOp.deleteOne id], none)
  else
    match erSetTimeStampField cfg.deletedAtField nowD e with
    | Except.error m => Except.error m
    | Except.ok e1 => repoUpdate cfg nowU e1 s

/-- What the external client hands back to `FindOne(...).Decode(&entity)`:
a decoded document, `ErrNoDocuments`, or a transport/decoding failure. -/
inductive ClientReply where
  | found (e : Rec)
  | noDocuments
  | fail (msg : String)
deriving DecidableEq, Repr

/-- `Repository.FindOne` after the client replies: any error — including a
transport or decoding failure — is logged and collapsed to `nil`. -/
def repoFindOne (reply : ClientReply) : Option Rec :=
  match reply with
  | ClientReply.found e => some e
  | ClientReply.noDocuments => none
  | ClientReply.fail _ => none

/-- What the client hands back to `Find` + `cursor.All`: the decoded list,
or a failure at the find or at cursor iteration/decoding. -/
inductive CursorReply where
  | found (es : List Rec)
  | findFail (msg : String)
  | cursorFail (msg : String)
deriving DecidableEq, Repr

/-- `Repository.Find` after the client replies: either failure is logged
and collapsed to the nil slice. -/
def repoFind (reply : CursorReply) : List Rec :=
  match reply with
  | CursorReply.found es => es
  | CursorReply.findFail _ => []
  | CursorReply.cursorFail _ => []

/-- `Repository.FindById id` delegates to `FindOne` with the single-key
equality filter on `_id`, answered by the store index. -/
def repoFindById (s : MongoStore) (id : ObjectId) : Option Rec :=
  repoFindOne
    (match storeLookup s id with
     | some e => ClientReply.found e
     | none => ClientReply.noDocuments)

/-- A Go panic in the embedding: the operation ended in `Except.error`. -/
def isFatal {α : Type} : Except String α → Prop
  | Except.error _ => True
  | Except.ok _ => False

/-! ## Concrete instances used to exercise the theorems -/

/-- The record of spec §8: fields `name = "Jon"`, `age = 5`. -/
def jonRec : Rec :=
  ⟨[⟨("Name"), ("name"), BVal.vStr ("Jon")⟩,
    ⟨("Age"), ("age"), BVal.vInt 5⟩]⟩

/-- The field names `NewMockRepository` installs when left empty. -/
def mockDefaultCfg : Config := ⟨("ID"), ("CreatedAt"), ("UpdatedAt"), ("")⟩

/-- A well-formed entity for the mock lifecycle: ObjectID id plus both
timestamp fields. -/
def mockEntity0 : Rec :=
  ⟨[⟨("ID"), ("_id"), BVal.vObjId nilObjectId⟩,
    ⟨("CreatedAt"), ("created_at"), BVal.vTime 0⟩,
    ⟨("UpdatedAt"), ("updated_at"), BVal.vTime 0⟩,
    ⟨("Name"), ("name"), BVal.vStr ("Jon")⟩]⟩

/-- The entity as `MockRepository.Create` leaves it (fresh id 1, time 10). -/
def c1e : Rec := (mockCreate mockDefaultCfg 1 10 mockEntity0 ⟨[]⟩).1

/-- The mock store as `MockRepository.Create` leaves it. -/
def c1s : MockState := (mockCreate mockDefaultCfg 1 10 mockEntity0 ⟨[]⟩).2.1

def c3Store : MockState := ⟨[(("a"), jonRec)]⟩

/-- Soft-delete configuration: deleted-at role on, updated-at off. -/
def softCfg : Config := ⟨("ID"), (""), (""), ("DeletedAt")⟩

def softEntity : Rec :=
  ⟨[⟨("ID"), ("_id"), BVal.vObjId 7⟩,
    ⟨("DeletedAt"), ("deleted_at"), BVal.vTime 0⟩]⟩

def c2e : Rec := recSetField softEntity ("DeletedAt") (BVal.vTime 5)

def c2s : MongoStore := storeUpdateById ⟨[(7, softEntity)]⟩ 7 c2e

/-- Soft-delete configuration with the updated-at role also enabled. -/
def softCfg2 : Config := ⟨("ID"), (""), ("UpdatedAt"), ("DeletedAt")⟩

def softEntity2 : Rec :=
  ⟨[⟨("ID"), ("_id"), BVal.vObjId 7⟩,
    ⟨("UpdatedAt"), ("updated_at"), BVal.vTime 0⟩,
    ⟨("DeletedAt"), ("deleted_at"), BVal.vTime 0⟩]⟩

def c9e : Rec :=
  recSetField (recSetField softEntity2 ("DeletedAt") (BVal.vTime 5))
    ("UpdatedAt") (BVal.vTime 6)

def c9s : MongoStore := storeUpdateById ⟨[(7, softEntity2)]⟩ 7 c9e

/-- Hard-delete configuration: the deleted-at role is disabled. -/
def hardCfg : Config := ⟨("ID"), (""), (""), ("")⟩

def hardEntity : Rec := ⟨[⟨("ID"), ("_id"), BVal.vObjId 5⟩]⟩

def c4s : MongoStore := ⟨[(5, hardEntity)]⟩

/-- A configuration with every role enabled, for the string-id scenario. -/
def stringIdCfg : Config :=
  ⟨("ID"), ("CreatedAt"), ("UpdatedAt"), ("DeletedAt")⟩

/-- An entity whose configured id field is declared as a plain string. -/
def stringIdEntity : Rec := ⟨[⟨("ID"), ("_id"), BVal.vStr ("abc")⟩]⟩

def c8cfg : Config := ⟨("ID"), ("CreatedAt"), (""), ("")⟩

def c8e : Rec :=
  ⟨[⟨("ID"), ("_id"), BVal.vObjId nilObjectId⟩,
    ⟨("CreatedAt"), ("created_at"), BVal.vTime 0⟩]⟩

def c8e1 : Rec :=
  recSetField (recSetField c8e ("ID") (BVal.vObjId 3)) ("CreatedAt")
    (BVal.vTime 9)

/-! ## Lemmas about field access -/

theorem getFieldIn_setFieldIn_self (l : List GoField) (n : String) (v : BVal)
    (h : (getFieldIn l n).isSome) : getFieldIn (setFieldIn l n v) n = some v := by
  induction l with
  | nil => simp [getFieldIn] at h
  | cons f fs ih =>
    by_cases hn : f.name = n
    · simp [setFieldIn, getFieldIn, hn]
    · simp only [setFieldIn, getFieldIn, if_neg hn] at h ⊢
      exact ih h

theorem getFieldIn_setFieldIn_ne (l : List GoField) {m n : String}
    (h : m ≠ n) (v : BVal) :
    getFieldIn (setFieldIn l m v) n = getFieldIn l n := by
  induction l with
  | nil => simp [setFieldIn]
  | cons f fs ih =>
    by_cases hm : f.name = m
    · have hfn : ¬ f.name = n := fun hc => h (hm ▸ hc ▸ rfl)
      simp [setFieldIn, getFieldIn, hm, hfn, h]
    · by_cases hfn : f.name = n
      · simp [setFieldIn, getFieldIn, hm, hfn, Ne.symm h]
      · simp [setFieldIn, getFieldIn, hm, hfn, ih]

theorem recGetField_recSetField_self (e : Rec) (n : String) (v : BVal)
    (h : (recGetField e n).isSome) : recGetField (recSetField e n v) n = some v :=
  getFieldIn_setFieldIn_self e.fields n v h

theorem recGetField_recSetField_ne (e : Rec) {m n : String} (h : m ≠ n)
    (v : BVal) : recGetField (recSetField e m v) n = recGetField e n :=
  getFieldIn_setFieldIn_ne e.fields h v

/-! ## Lemmas about EntityReflection operations -/

theorem erSetNewID_ok_inv {cfg : Config} {fresh : ObjectId} {e e1 : Rec}
    (h : erSetNewID cfg fresh e = Except.ok e1) :
    recGetField e1 cfg.idField = some (BVal.vObjId fresh) := by
  unfold erSetNewID at h
  cases hf : recGetField e cfg.idField with
  | none => rw [hf] at h; exact Except.noConfusion h
  | some bv =>
    cases bv with
    | vObjId o =>
      rw [hf] at h
      injection h with h1
      rw [← h1]
      exact recGetField_recSetField_self e cfg.idField _ (by rw [hf]; rfl)
    | vStr s => rw [hf] at h; exact Except.noConfusion h
    | vInt n => rw [hf] at h; exact Except.noConfusion h
    | vBool b => rw [hf] at h; exact Except.noConfusion h
    | vTime t => rw [hf] at h; exact Except.noConfusion h

theorem erSetTimeStampField_ok_inv {field : String} {now : Nat} {e e1 : Rec}
    (h : erSetTimeStampField field now e = Except.ok e1) :
    ∃ t, recGetField e field = some (BVal.vTime t) ∧
      e1 = recSetField e field (BVal.vTime now) := by
  unfold erSetTimeStampField at h
  cases hf : recGetField e field with
  | none => rw [hf] at h; exact Except.noConfusion h
  | some bv =>
    cases bv with
    | vTime t =>
      rw [hf] at h
      injection h with h1
      exact ⟨t, rfl, h1.symm⟩
    | vStr s => rw [hf] at h; exact Except.noConfusion h
    | vInt n => rw [hf] at h; exact Except.noConfusion h
    | vBool b => rw [hf] at h; exact Except.noConfusion h
    | vObjId o => rw [hf] at h; exact Except.noConfusion h

/-- A successful timestamp stamp writes `now` into its own field. -/
theorem erSetTimeStampField_stamps {field : String} {now : Nat} {e e1 : Rec}
    (h : erSetTimeStampField field now e = Except.ok e1) :
    recGetField e1 field = some (BVal.vTime now) := by
  obtain ⟨t, hf, he⟩ := erSetTimeStampField_ok_inv h
  rw [he]
  exact recGetField_recSetField_self e field _ (by rw [hf]; rfl)

/-- A successful timestamp stamp leaves every other field name alone. -/
theorem erSetTimeStampField_preserves_ne {field : String} {now : Nat}
    {e e1 : Rec} (h : erSetTimeStampField field now e = Except.ok e1)
    {n : String} (hne : field ≠ n) :
    recGetField e1 n = recGetField e n := by
  obtain ⟨t, _, he⟩ := erSetTimeStampField_ok_inv h
  rw [he]
  exact recGetField_recSetField_ne e hne _

/-- A successful timestamp stamp preserves any field holding a value that
is not a timestamp: such a field cannot be the stamped one. -/
theorem erSetTimeStampField_preserves {field : String} {now : Nat}
    {e e1 : Rec} (h : erSetTimeStampField field now e = Except.ok e1)
    {n : String} {v : BVal} (hv : recGetField e n = some v)
    (hnt : ∀ t, v ≠ BVal.vTime t) : recGetField e1 n = some v := by
  obtain ⟨t, hf, he⟩ := erSetTimeStampField_ok_inv h
  have hne : field ≠ n := by
    intro heq
    rw [heq, hv] at hf
    injection hf with hf1
    exact hnt t hf1
  rw [erSetTimeStampField_preserves_ne h hne, hv]

/-! ## Lemmas about the keyed stores -/

theorem assocErase_of_lookup_none {α : Type} (l : List (String × α))
    (k : String) (h : assocLookup l k = none) : assocErase l k = l := by
  have hfind : l.find? (fun p => p.1 = k) = none := by
    cases hf : l.find? (fun p => p.1 = k) with
    | none => rfl
    | some p => rw [assocLookup, hf] at h; exact Option.noConfusion h
  have hall := List.find?_eq_none.mp hfind
  refine List.filter_eq_self.mpr (fun p hp => ?_)
  simpa using hall p hp

theorem map_fst_update (l : List (ObjectId × Rec)) (id : ObjectId) (e : Rec) :
    (l.map (fun p => if p.1 = id then (p.1, e) else p)).map Prod.fst =
      l.map Prod.fst := by
  induction l with
  | nil => rfl
  | cons p t ih => by_cases h : p.1 = id <;> simp [h, ih]

theorem storeUpdateById_keys (s : MongoStore) (id : ObjectId) (e : Rec) :
    (storeUpdateById s id e).docs.map Prod.fst = s.docs.map Prod.fst := by
  cases s with
  | mk docs => exact map_fst_update docs id e

theorem find?_eraseP_key (l : List (ObjectId × Rec)) (id : ObjectId)
    (hnd : (l.map Prod.fst).Nodup) :
    (l.eraseP (fun p => p.1 = id)).find? (fun p => p.1 = id) = none := by
  induction l with
  | nil => rfl
  | cons p t ih =>
    have hnd1 : (p.1 :: t.map Prod.fst).Nodup := by simpa using hnd
    have hnd2 : p.1 ∉ t.map Prod.fst ∧ (t.map Prod.fst).Nodup :=
      List.nodup_cons.mp hnd1
    by_cases h : p.1 = id
    · rw [List.eraseP_cons_of_pos (by simpa using h)]
      refine List.find?_eq_none.mpr (fun x hx => ?_)
      have : x.1 ∈ t.map Prod.fst := List.mem_map_of_mem Prod.fst hx
      simp only [decide_eq_true_eq]
      intro hxid
      exact hnd2.1 (h ▸ hxid ▸ this)
    · rw [List.eraseP_cons_of_neg (by simpa using h)]
      rw [List.find?_cons_of_neg _ (by simpa using h)]
      exact ih hnd2.2

theorem storeLookup_deleteOne_self (s : MongoStore) (id : ObjectId)
    (hnd : (s.docs.map Prod.fst).Nodup) :
    storeLookup (storeDeleteOne s id) id = none := by
  rw [storeLookup, storeDeleteOne]
  rw [find?_eraseP_key s.docs id hnd]
  rfl

/-! ## Inversion of the Repository operations -/

theorem repoUpdate_ok_inv {cfg : Config} {now : Nat} {e : Rec}
    {s : MongoStore} {e1 : Rec} {s1 : MongoStore} {ops : List StoreOp}
    {ret : Option String}
    (h : repoUpdate cfg now e s = Except.ok (e1, s1, ops, ret)) :
    ∃ id, erGetID cfg e1 = Except.ok id ∧ ops = [StoreOp.updateById id] ∧
      ret = none ∧ s1 = storeUpdateById s id e1 ∧
      ((cfg.updatedAtField = "" ∧ e1 = e) ∨
        (cfg.updatedAtField ≠ "" ∧
          erSetTimeStampField cfg.updatedAtField now e = Except.ok e1)) := by
  unfold repoUpdate at h
  split at h
  · exact Except.noConfusion h
  · rename_i e2 hstamp
    split at h
    · exact Except.noConfusion h
    · rename_i id hid
      simp only [Except.ok.injEq, Prod.mk.injEq] at h
      obtain ⟨he, hs, ho, hr⟩ := h
      subst he
      refine ⟨id, hid, ho.symm, hr.symm, hs.symm, ?_⟩
      by_cases hu : cfg.updatedAtField = ""
      · rw [if_pos hu] at hstamp
        injection hstamp with h2
        exact Or.inl ⟨hu, h2.symm⟩
      · rw [if_neg hu] at hstamp
        exact Or.inr ⟨hu, hstamp⟩

/-! ## Fatality of a mistyped identifier field -/

theorem erGetID_fatal_of_stringId {cfg : Config} {e : Rec} {sv : String}
    (hid : recGetField e cfg.idField = some (BVal.vStr sv)) :
    isFatal (erGetID cfg e) := by
  unfold erGetID
  rw [hid]
  trivial

theorem erSetNewID_fatal_of_stringId {cfg : Config} {fresh : ObjectId}
    {e : Rec} {sv : String}
    (hid : recGetField e cfg.idField = some (BVal.vStr sv)) :
    isFatal (erSetNewID cfg fresh e) := by
  unfold erSetNewID
  rw [hid]
  trivial

theorem repoUpdate_fatal_of_stringId {cfg : Config} {now : Nat} {e : Rec}
    {s : MongoStore} {sv : String}
    (hid : recGetField e cfg.idField = some (BVal.vStr sv)) :
    isFatal (repoUpdate cfg now e s) := by
  unfold repoUpdate
  split
  · trivial
  · rename_i e1 hstamp
    have hid1 : recGetField e1 cfg.idField = some (BVal.vStr sv) := by
      by_cases hu : cfg.updatedAtField = ""
      · rw [if_pos hu] at hstamp
        injection hstamp with h2
        rw [← h2]
        exact hid
      · rw [if_neg hu] at hstamp
        exact erSetTimeStampField_preserves hstamp hid
          (fun t ht => BVal.noConfusion ht)
    split
    · trivial
    · rename_i id hgot
      have := erGetID_fatal_of_stringId hid1
      rw [hgot] at this
      exact this.elim

theorem repoCreate_fatal_of_stringId {cfg : Config} {fresh : ObjectId}
    {now : Nat} {insertErr : Option String} {e : Rec} {s : MongoStore}
    {sv : String}
    (hid : recGetField e cfg.idField = some (BVal.vStr sv)) :
    isFatal (repoCreate cfg fresh now insertErr e s) := by
  unfold repoCreate
  split
  · trivial
  · rename_i e1 hset
    have := @erSetNewID_fatal_of_stringId cfg fresh e sv hid
    rw [hset] at this
    exact this.elim

theorem repoDelete_fatal_of_stringId {cfg : Config} {nowD nowU : Nat}
    {e : Rec} {s : MongoStore} {sv : String}
    (hid : recGetField e cfg.idField = some (BVal.vStr sv)) :
    isFatal (repoDelete cfg nowD nowU e s) := by
  unfold repoDelete
  by_cases hd : cfg.deletedAtField = ""
  · rw [if_pos hd]
    split
    · trivial
    · rename_i id hgot
      have := erGetID_fatal_of_stringId hid
      rw [hgot] at this
      exact this.elim
  · rw [if_neg hd]
    split
    · trivial
    · rename_i e1 hstamp
      have hid1 : recGetField e1 cfg.idField = some (BVal.vStr sv) :=
        erSetTimeStampField_preserves hstamp hid
          (fun t ht => BVal.noConfusion ht)
      exact repoUpdate_fatal_of_stringId hid1

/-! ## The claims -/

/-- C1: the claim says `MockRepository.Update` succeeds exactly on the
entities stored under their hex-encoded identifier key.  The code instead
looks the entry up under `id.String()` — the `ObjectID("...")` rendering —
so it reports "entity not found" for an entity `Create` just stored under
the hex key, leaving the store unchanged. -/
theorem mockUpdate_misses_hex_keyed_entry :
    mockFindById c1s 1 = some c1e ∧
    (mockUpdate mockDefaultCfg 20 c1e c1s).2.2 = some ("entity not found") ∧
    (mockUpdate mockDefaultCfg 20 c1e c1s).2.1 = c1s :=
  ⟨rfl, rfl, rfl⟩

/-- C3: `MockRepository.Delete` erases the key of a freshly generated
identifier, never the target entity's key; since a fresh identifier's hex
key is absent from the mapping, the store is returned unchanged, the call
succeeds, and every stored entry — the target's included — survives. -/
theorem mockDelete_never_removes_target (s : MockState) (e r : Rec)
    (fresh : ObjectId) (k : String)
    (hfresh : assocLookup s.memoryDb (oidHex fresh) = none)
    (hmem : assocLookup s.memoryDb k = some r) :
    (mockDelete fresh e s).1 = s ∧ (mockDelete fresh e s).2 = none ∧
    assocLookup (mockDelete fresh e s).1.memoryDb k = some r := by
  have h1 : (mockDelete fresh e s).1 = s := by
    cases s with
    | mk db =>
      show MockState.mk (assocErase db (oidHex fresh)) = MockState.mk db
      exact congrArg MockState.mk
        (assocErase_of_lookup_none db (oidHex fresh) hfresh)
  exact ⟨h1, rfl, by rw [h1]; exact hmem⟩

theorem mockDelete_never_removes_target_witness :
    (mockDelete 1 jonRec c3Store).1 = c3Store ∧
    (mockDelete 1 jonRec c3Store).2 = none ∧
    assocLookup (mockDelete 1 jonRec c3Store).1.memoryDb ("a") = some jonRec :=
  mockDelete_never_removes_target c3Store jonRec jonRec 1 ("a") (by rfl)
    (by rfl)

/-- C2: with the deleted-at role enabled, `Repository.Delete` never issues
a physical removal: whenever the call returns, the store trace is a single
`UpdateByID` (no `DeleteOne`), the set of stored document keys is
untouched, and the entity written carries a deleted-at timestamp. -/
theorem repoDelete_soft_never_removes (cfg : Config) (nowD nowU : Nat)
    (e e1 : Rec) (s s1 : MongoStore) (ops : List StoreOp) (ret : Option String)
    (hcfg : cfg.deletedAtField ≠ "")
    (h : repoDelete cfg nowD nowU e s = Except.ok (e1, s1, ops, ret)) :
    (∀ id, StoreOp.deleteOne id ∉ ops) ∧
    (∃ id, ops = [StoreOp.updateById id]) ∧
    s1.docs.map Prod.fst = s.docs.map Prod.fst ∧
    (∃ t, recGetField e1 cfg.deletedAtField = some (BVal.vTime t)) := by
  unfold repoDelete at h
  rw [if_neg hcfg] at h
  split at h
  · exact Except.noConfusion h
  · rename_i ed hst
    obtain ⟨id, hid, ho, hr, hs, hcase⟩ := repoUpdate_ok_inv h
    subst ho
    subst hs
    refine ⟨?_, ⟨id, rfl⟩, storeUpdateById_keys s id e1, ?_⟩
    · intro i hmem
      simp at hmem
    · have hd1 : recGetField ed cfg.deletedAtField = some (BVal.vTime nowD) :=
        erSetTimeStampField_stamps hst
      rcases hcase with ⟨hu, he⟩ | ⟨hu, hstu⟩
      · exact ⟨nowD, by rw [he]; exact hd1⟩
      · by_cases hsame : cfg.updatedAtField = cfg.deletedAtField
        · exact ⟨nowU, by rw [← hsame]; exact erSetTimeStampField_stamps hstu⟩
        · refine ⟨nowD, ?_⟩
          rw [erSetTimeStampField_preserves_ne hstu hsame]
          exact hd1

theorem repoDelete_soft_never_removes_witness :
    (∀ id, StoreOp.deleteOne id ∉ [StoreOp.updateById 7]) ∧
    (∃ id, [StoreOp.updateById 7] = [StoreOp.updateById id]) ∧
    c2s.docs.map Prod.fst =
      (MongoStore.mk [(7, softEntity)]).docs.map Prod.fst ∧
    (∃ t, recGetField c2e softCfg.deletedAtField = some (BVal.vTime t)) :=
  repoDelete_soft_never_removes softCfg 5 6 softEntity c2e
    ⟨[(7, softEntity)]⟩ c2s [StoreOp.updateById 7] none (by decide) (by rfl)

/-- C9: with both the deleted-at and updated-at roles enabled (on distinct
fields), a returning `Repository.Delete` writes the delete-time timestamp
to the deleted-at field and the update-time timestamp to the updated-at
field — soft delete delegates to `Update`, which stamps updated-at. -/
theorem repoDelete_soft_stamps_updatedAt (cfg : Config) (nowD nowU : Nat)
    (e e1 : Rec) (s s1 : MongoStore) (ops : List StoreOp) (ret : Option String)
    (hdel : cfg.deletedAtField ≠ "") (hupd : cfg.updatedAtField ≠ "")
    (hne : cfg.updatedAtField ≠ cfg.deletedAtField)
    (h : repoDelete cfg nowD nowU e s = Except.ok (e1, s1, ops, ret)) :
    recGetField e1 cfg.updatedAtField = some (BVal.vTime nowU) ∧
    recGetField e1 cfg.deletedAtField = some (BVal.vTime nowD) := by
  unfold repoDelete at h
  rw [if_neg hdel] at h
  split at h
  · exact Except.noConfusion h
  · rename_i ed hst
    obtain ⟨id, hid, ho, hr, hs, hcase⟩ := repoUpdate_ok_inv h
    rcases hcase with ⟨hu, _⟩ | ⟨_, hstu⟩
    · exact absurd hu hupd
    · refine ⟨erSetTimeStampField_stamps hstu, ?_⟩
      rw [erSetTimeStampField_preserves_ne hstu hne]
      exact erSetTimeStampField_stamps hst

theorem repoDelete_soft_stamps_updatedAt_witness :
    recGetField c9e softCfg2.updatedAtField = some (BVal.vTime 6) ∧
    recGetField c9e softCfg2.deletedAtField = some (BVal.vTime 5) :=
  repoDelete_soft_stamps_updatedAt softCfg2 5 6 softEntity2 c9e
    ⟨[(7, softEntity2)]⟩ c9s [StoreOp.updateById 7] none (by decide)
    (by decide) (by decide) (by rfl)

/-- C4: with the deleted-at role disabled, `Repository.Delete` issues a
physical `DeleteOne` on the entity's identifier, and a subsequent
`FindById` with that identifier returns absent. -/
theorem repoDelete_hard_removes (cfg : Config) (nowD nowU : Nat) (e e1 : Rec)
    (s s1 : MongoStore) (ops : List StoreOp) (ret : Option String)
    (id : ObjectId)
    (hcfg : cfg.deletedAtField = "")
    (hnd : (s.docs.map Prod.fst).Nodup)
    (hid : erGetID cfg e = Except.ok id)
    (h : repoDelete cfg nowD nowU e s = Except.ok (e1, s1, ops, ret)) :
    repoFindById s1 id = none ∧ ops = [StoreOp.deleteOne id] ∧ ret = none := by
  unfold repoDelete at h
  rw [if_pos hcfg] at h
  split at h
  · exact Except.noConfusion h
  · rename_i id2 hid2
    rw [hid] at hid2
    injection hid2 with hq
    subst hq
    simp only [Except.ok.injEq, Prod.mk.injEq] at h
    obtain ⟨he, hs, ho, hr⟩ := h
    refine ⟨?_, ho.symm, hr.symm⟩
    rw [← hs]
    have hnone := storeLookup_deleteOne_self s id hnd
    rw [repoFindById, hnone]
    rfl

theorem repoDelete_hard_removes_witness :
    repoFindById (storeDeleteOne c4s 5) 5 = none ∧
    [StoreOp.deleteOne 5] = [StoreOp.deleteOne 5] ∧
    (none : Option String) = none :=
  repoDelete_hard_removes hardCfg 0 0 hardEntity hardEntity c4s
    (storeDeleteOne c4s 5) [StoreOp.deleteOne 5] none 5 rfl (by decide)
    (by rfl) (by rfl)

/-- C5: over records whose serialized field names are pairwise distinct
(Go struct fields have unique names, and well-formed bson tags do not
collide), `matchesQuery` succeeds exactly when every filter key names a
record field holding a deeply equal value; a filter key matching no field
fails the whole match.  In particular, for the record
`name = "Jon", age = 5`: the filter on `name = "Jon"` matches, the filter
adding `age = 6` does not, and a filter on a missing field does not. -/
theorem matchesQuery_spec :
    (∀ (e : Rec) (q : List (String × BVal)),
        (e.fields.map getBsonTagName).Nodup →
        (matchesQuery e q = true ↔
          ∀ kv ∈ q, ∃ f ∈ e.fields,
            getBsonTagName f = kv.1 ∧ f.value = kv.2)) ∧
    matchesQuery jonRec [(("name"), BVal.vStr ("Jon"))] = true ∧
    matchesQuery jonRec
      [(("name"), BVal.vStr ("Jon")), (("age"), BVal.vInt 6)] = false ∧
    matchesQuery jonRec [(("missingField"), BVal.vInt 1)] = false := by
  refine ⟨?_, by decide, by decide, by decide⟩
  intro e q hnd
  rw [matchesQuery, List.all_eq_true]
  constructor
  · intro hall kv hkv
    have hone := hall kv hkv
    cases hfind : e.fields.find? (fun f => getBsonTagName f = kv.1) with
    | none => rw [hfind] at hone; exact absurd hone (by simp)
    | some f =>
      rw [hfind] at hone
      refine ⟨f, List.mem_of_find?_eq_some hfind, ?_, ?_⟩
      · simpa using List.find?_some hfind
      · simpa using hone
  · intro hex kv hkv
    obtain ⟨f, hf, htag, hval⟩ := hex kv hkv
    cases hfind : e.fields.find? (fun f => getBsonTagName f = kv.1) with
    | none =>
      have := List.find?_eq_none.mp hfind f hf
      simp [htag] at this
    | some f2 =>
      have hmem2 := List.mem_of_find?_eq_some hfind
      have htag2 : getBsonTagName f2 = kv.1 := by
        simpa using List.find?_some hfind
      have hsame : f = f2 :=
        List.inj_on_of_nodup_map hnd hf hmem2 (by rw [htag, htag2])
      simp [← hsame, hval]

theorem matchesQuery_spec_witness :
    matchesQuery jonRec [(("name"), BVal.vStr ("Jon"))] = true ↔
      ∀ kv ∈ [(("name"), BVal.vStr ("Jon"))], ∃ f ∈ jonRec.fields,
        getBsonTagName f = kv.1 ∧ f.value = kv.2 :=
  matchesQuery_spec.1 jonRec [(("name"), BVal.vStr ("Jon"))] (by decide)

/-- C6: on a record whose configured identifier field is declared as a
plain string rather than `primitive.ObjectID`, every identifier-touching
lifecycle operation panics — `GetID`, `SetNewID`, and therefore `Create`
(id assignment), `Update` and `Delete` (id read) — never proceeding with
a coerced or degraded result. -/
theorem stringId_lifecycle_fatal (cfg : Config) (e : Rec) (sv : String)
    (fresh : ObjectId) (now nowD nowU : Nat) (insertErr : Option String)
    (s : MongoStore)
    (hid : recGetField e cfg.idField = some (BVal.vStr sv)) :
    isFatal (erGetID cfg e) ∧ isFatal (erSetNewID cfg fresh e) ∧
    isFatal (repoCreate cfg fresh now insertErr e s) ∧
    isFatal (repoUpdate cfg now e s) ∧
    isFatal (repoDelete cfg nowD nowU e s) :=
  ⟨erGetID_fatal_of_stringId hid, erSetNewID_fatal_of_stringId hid,
    repoCreate_fatal_of_stringId hid, repoUpdate_fatal_of_stringId hid,
    repoDelete_fatal_of_stringId hid⟩

theorem stringId_lifecycle_fatal_witness :
    isFatal (erGetID stringIdCfg stringIdEntity) ∧
    isFatal (erSetNewID stringIdCfg 1 stringIdEntity) ∧
    isFatal (repoCreate stringIdCfg 1 0 none stringIdEntity ⟨[]⟩) ∧
    isFatal (repoUpdate stringIdCfg 0 stringIdEntity ⟨[]⟩) ∧
    isFatal (repoDelete stringIdCfg 0 0 stringIdEntity ⟨[]⟩) :=
  stringId_lifecycle_fatal stringIdCfg stringIdEntity ("abc") 1 0 0 0 none
    ⟨[]⟩ (by rfl)

/-- C7 counterexample: the claim requires a transport or decoding failure
to reach the caller as a signal distinct from absent, but `FindOne` and
`Find` collapse a failure reply to exactly the value returned for "no
match" — `nil` — so at this input the failure is indistinguishable from
absent and no error is returned. -/
theorem repoFind_failure_collapses_to_absent :
    repoFindOne (ClientReply.fail ("network error")) = none ∧
    repoFindOne ClientReply.noDocuments = none ∧
    repoFind (CursorReply.findFail ("network error")) = [] ∧
    repoFind (CursorReply.found []) = [] :=
  ⟨rfl, rfl, rfl, rfl⟩

/-- C7 as amended: query operations return absent on no match, and on a
transport/decoding failure they log and return the same absent value
(`nil` pointer or `nil` slice); the failure is not reported to the caller
as a distinct signal. -/
theorem repoFind_absent_and_error_semantics :
    (∀ e, repoFindOne (ClientReply.found e) = some e) ∧
    repoFindOne ClientReply.noDocuments = none ∧
    (∀ msg, repoFindOne (ClientReply.fail msg) = none) ∧
    (∀ es, repoFind (CursorReply.found es) = es) ∧
    (∀ msg, repoFind (CursorReply.findFail msg) = []) ∧
    (∀ msg, repoFind (CursorReply.cursorFail msg) = []) ∧
    (∀ s id, repoFindById s id = storeLookup s id) := by
  refine ⟨fun e => rfl, rfl, fun msg => rfl, fun es => rfl, fun msg => rfl,
    fun msg => rfl, fun s id => ?_⟩
  cases h : storeLookup s id <;> simp [repoFindById, repoFindOne, h]

/-- C8: `Repository.Create` with a failing insert still returns the insert
error, leaves the store untouched, and leaves the freshly assigned
identifier on the caller's entity — the assignment is not rolled back. -/
theorem repoCreate_no_rollback (cfg : Config) (fresh : ObjectId) (now : Nat)
    (msg : String) (e e1 : Rec) (s s1 : MongoStore) (ops : List StoreOp)
    (ret : Option String)
    (h : repoCreate cfg fresh now (some msg) e s = Except.ok (e1, s1, ops, ret)) :
    ret = some msg ∧ s1 = s ∧
    recGetField e1 cfg.idField = some (BVal.vObjId fresh) := by
  unfold repoCreate at h
  split at h
  · exact Except.noConfusion h
  · rename_i ea hset
    split at h
    · exact Except.noConfusion h
    · rename_i eb hstamp
      simp only [Except.ok.injEq, Prod.mk.injEq] at h
      obtain ⟨he, hs, ho, hr⟩ := h
      refine ⟨hr.symm, hs.symm, ?_⟩
      rw [← he]
      have hida : recGetField ea cfg.idField = some (BVal.vObjId fresh) :=
        erSetNewID_ok_inv hset
      by_cases hc : cfg.createdAtField = ""
      · rw [if_pos hc] at hstamp
        injection hstamp with h2
        rw [← h2]
        exact hida
      · rw [if_neg hc] at hstamp
        exact erSetTimeStampField_preserves hstamp hida
          (fun t ht => BVal.noConfusion ht)

theorem repoCreate_no_rollback_witness :
    (some ("insert failed") : Option String) = some ("insert failed") ∧
    (MongoStore.mk []) = (MongoStore.mk []) ∧
    recGetField c8e1 c8cfg.idField = some (BVal.vObjId 3) :=
  repoCreate_no_rollback c8cfg 3 9 ("insert failed") c8e c8e1 ⟨[]⟩ ⟨[]⟩
    [StoreOp.insertOne 3] (some ("insert failed")) (by rfl)
